import Mathlib

/-!
Availability checker (`main.go`): shallow embedding and verified properties.

Go strings are modelled as Lean `String`s (sequences of Unicode code points, i.e. valid
UTF-8).  The parsed HTML document that `goquery.NewDocumentFromReader` builds is a tree of
`Node`s; `Find`, `First`, `Length` and `Text` follow goquery/cascadia: a selector group is
matched against every element in document order (pre-order), and `Text` concatenates the
text nodes below each selected node.
-/

set_option autoImplicit false

namespace Labubu

/-! ## Go `strings` -/

/-- Offset of the first occurrence of `sub` in `s`, counted from `i`; `-1` when absent. -/
def indexFrom (sub : List Char) : List Char → Nat → Int
  | [], i => if sub.isPrefixOf [] then (i : Int) else -1
  | c :: cs, i => if sub.isPrefixOf (c :: cs) then (i : Int) else indexFrom sub cs (i + 1)

/-- Go `strings.Index(s, substr)`: index of the first occurrence of `substr` in `s`,
or `-1` if `substr` is not present. -/
def Index (s substr : String) : Int :=
  indexFrom substr.data s.data 0

/-- Go `strings.Contains(s, substr)`, which the Go library defines as
`Index(s, substr) >= 0`. -/
def Contains (s substr : String) : Bool :=
  decide (Index s substr ≥ 0)

/-- Go slice expression `s[:idx]` for `0 ≤ idx ≤ len(s)`. -/
def sliceTo (s : String) (idx : Int) : String :=
  ⟨s.data.take idx.toNat⟩

/-- Go `unicode.IsSpace`: the Latin-1 white space characters and the other code points of
the Unicode `White_Space` property. -/
def isSpace (c : Char) : Bool :=
  let n := c.toNat
  (0x09 ≤ n && n ≤ 0x0D) || n == 0x20 || n == 0x85 || n == 0xA0 || n == 0x1680 ||
  (0x2000 ≤ n && n ≤ 0x200A) || n == 0x2028 || n == 0x2029 || n == 0x202F ||
  n == 0x205F || n == 0x3000

/-- Go `strings.TrimSpace`: remove all leading and trailing white space. -/
def TrimSpace (s : String) : String :=
  ⟨((s.data.dropWhile isSpace).reverse.dropWhile isSpace).reverse⟩

/-- Go `strings.ToLower`.  The per-rune mapping `unicode.ToLower` is a table of the Go
standard library; it is the parameter `lowerRune`. -/
def ToLower (lowerRune : Char → Char) (s : String) : String :=
  ⟨s.data.map lowerRune⟩

/-! ## Parsed documents (`golang.org/x/net/html` nodes) -/

/-- An attribute of an element: `html.Attribute` (key and value). -/
structure Attribute where
  key : String
  val : String
  deriving DecidableEq, Repr

/-- A node of the parsed document: text, comment or element with its children. -/
inductive Node where
  | text (data : String)
  | comment (data : String)
  | element (tag : String) (attr : List Attribute) (children : List Node)

/-- A goquery `Selection`: the selected nodes, in order. -/
abbrev Selection := List Node

mutual
/-- Text content of a node: the data of every text node below it, in document order. -/
def Node.textContent : Node → List Char
  | .text d => d.data
  | .comment _ => []
  | .element _ _ cs => textContentList cs
/-- Text content of a list of sibling nodes. -/
def textContentList : List Node → List Char
  | [] => []
  | n :: ns => n.textContent ++ textContentList ns
end

/-- goquery `Selection.Text`: the combined text contents of each selected node,
including their descendants. -/
def Selection.Text (s : Selection) : String :=
  ⟨textContentList s⟩

/-- goquery `Selection.First`: the selection reduced to its first node. -/
def Selection.First (s : Selection) : Selection :=
  s.take 1

/-- goquery `Selection.Length`. -/
def Selection.Length (s : Selection) : Nat :=
  List.length s

/-! ## Selectors (cascadia) -/

/-- The compiled form of the selectors the program uses: `#id`, `.class`, and the
descendant combinator `a d` (white space). -/
inductive Sel where
  | id (v : String)
  | cls (v : String)
  | descendant (a d : Sel)

/-- The cascadia `matchAttribute`: some attribute named `key` has a value satisfying `f`. -/
def matchAttribute (attr : List Attribute) (key : String) (f : String → Bool) : Bool :=
  attr.any (fun a => a.key == key && f a.val)

/-- Loop of the cascadia class matcher over the remaining attribute value: `tok` is the
part of the current white-space-separated word read so far. -/
def matchIncludeLoop (val : List Char) : List Char → List Char → Bool
  | tok, [] => tok == val
  | tok, c :: cs =>
    if c = ' ' ∨ c = '\t' ∨ c = '\r' ∨ c = '\n' ∨ c = '\x0c' then
      tok == val || (match cs with
        | [] => false
        | _ :: _ => matchIncludeLoop val [] cs)
    else matchIncludeLoop val (tok ++ [c]) cs

/-- The cascadia `matchInclude`: `val` is one of the white-space-separated words of `s`. -/
def matchInclude (val s : String) : Bool :=
  match s.data with
  | [] => false
  | c :: cs => matchIncludeLoop val.data [] (c :: cs)

/-- Whether an element with attributes `attr` and ancestor elements `anc` (their attribute
lists, nearest ancestor first) matches the selector.  For `a d` the element must match `d`
and some proper ancestor must match `a` (cascadia `descendantMatch`). -/
def Sel.Match : Sel → List (List Attribute) → List Attribute → Bool
  | .id v, _, attr => matchAttribute attr "id" (fun s => s == v)
  | .cls v, _, attr => matchAttribute attr "class" (fun s => matchInclude v s)
  | .descendant a d, anc, attr =>
    d.Match anc attr &&
      anc.tails.any (fun t =>
        match t with
        | [] => false
        | p :: ps => a.Match ps p)

/-- A selector group `s1, s2, ...` matches when any of its selectors does. -/
def matchGroup (g : List Sel) (anc : List (List Attribute)) (attr : List Attribute) : Bool :=
  g.any (fun s => s.Match anc attr)

mutual
/-- The cascadia `MatchAll` on the subtree of a node whose ancestors are `anc`: the node
itself if it matches, then the matches among its descendants, in document order. -/
def Node.matchAll (g : List Sel) : List (List Attribute) → Node → List Node
  | _, .text _ => []
  | _, .comment _ => []
  | anc, .element tag attr cs =>
    (if matchGroup g anc attr then [Node.element tag attr cs] else []) ++
      matchAllList g (attr :: anc) cs
/-- Matches below a list of sibling nodes. -/
def matchAllList (g : List Sel) : List (List Attribute) → List Node → List Node
  | _, [] => []
  | anc, n :: ns => n.matchAll g anc ++ matchAllList g anc ns
end

/-- The parsed document: the children of the root document node. -/
structure Document where
  roots : List Node

/-- goquery `doc.Find(selector)`: the elements below the document root that match the
selector group, in document order. -/
def Document.Find (doc : Document) (g : List Sel) : Selection :=
  matchAllList g [] doc.roots

/-! ## `checkAvailability` -/

/-- Selector `"#add-to-cart-button, #buy-now-button"`. -/
def buyButtonSelector : List Sel :=
  [.id "add-to-cart-button", .id "buy-now-button"]

/-- Selector `"#price_inside_buybox, #priceblock_ourprice, .a-price .a-offscreen,
  #corePrice_feature_div .a-price .a-offscreen"` (one string in the source). -/
def priceSelector : List Sel :=
  [.id "price_inside_buybox", .id "priceblock_ourprice",
   .descendant (.cls "a-price") (.cls "a-offscreen"),
   .descendant (.descendant (.id "corePrice_feature_div") (.cls "a-price")) (.cls "a-offscreen")]

/-- Selector `"#availability, #outOfStock, #availability_feature_div"`. -/
def availabilitySelector : List Sel :=
  [.id "availability", .id "outOfStock", .id "availability_feature_div"]

/-- The `unavailableIndicators` slice. -/
def unavailableIndicators : List String :=
  ["currently unavailable",
   "this item is not available",
   "we don't know when or if this item will be back in stock",
   "sign up to be notified when this item becomes available",
   "temporarily out of stock"]

/-- The `inStockIndicators` slice. -/
def inStockIndicators : List String :=
  ["in stock", "ships from", "fulfilled by amazon"]

/-- Local `buyButton`: `doc.Find("#add-to-cart-button, #buy-now-button").Length() > 0`. -/
def buyButton (doc : Document) : Bool :=
  decide ((doc.Find buyButtonSelector).Length > 0)

/-- Local `price`: `strings.TrimSpace(doc.Find(<price selectors>).First().Text())`. -/
def price (doc : Document) : String :=
  TrimSpace (doc.Find priceSelector).First.Text

/-- Local `availabilityText`: `strings.ToLower(doc.Find(<availability selectors>).Text())`. -/
def availabilityText (lowerRune : Char → Char) (doc : Document) : String :=
  ToLower lowerRune (doc.Find availabilitySelector).Text

/-- The part of `checkAvailability` after the document has been parsed (the classification
of the page).  The results are `(available, status, err)`; a `nil` error is `none`.  The
two `for ... range` loops return the same value whichever indicator matches, so each is an
`any` over the slice.  Log output is not part of the result. -/
def classify (lowerRune : Char → Char) (doc : Document) : Bool × String × Option String :=
  let buyButton := buyButton doc
  let price := price doc
  let hasPrice := price != ""
  let availabilityText := availabilityText lowerRune doc
  if unavailableIndicators.any (fun indicator => Contains availabilityText indicator) then
    (false, "Currently unavailable", none)
  else if inStockIndicators.any (fun indicator => Contains availabilityText indicator) then
    if price != "" then (true, "Available - Price: " ++ price, none)
    else (true, "Available", none)
  else if buyButton && hasPrice then
    if price != "" then (true, "Available - Price: " ++ price, none)
    else (true, "Available", none)
  else (false, "Status unclear - possibly unavailable", none)

/-- An HTTP response as far as `checkAvailability` looks at it: the status code and what
`io.ReadAll(resp.Body)` gives (the body text, or an error). -/
structure Response where
  StatusCode : Int
  Body : Except String String

/-- What lies outside the program: the outcome of `http.NewRequest` and of `client.Do` for
a URL, the HTML parser behind `goquery.NewDocumentFromReader`, and `unicode.ToLower`. -/
structure Env where
  newRequest : String → Option String
  clientDo : String → Except String Response
  parse : String → Except String Document
  lowerRune : Char → Char

/-- Go `fmt.Sprintf("%d", n)`. -/
def formatInt (n : Int) : String :=
  toString n

/-- The function `checkAvailability(url)`, returning `(available, status, err)`. -/
def checkAvailability (env : Env) (url : String) : Bool × String × Option String :=
  match env.newRequest url with
  | some err => (false, "", some err)
  | none =>
    match env.clientDo url with
    | .error err => (false, "", some err)
    | .ok resp =>
      if resp.StatusCode ≠ 200 then
        (false, "HTTP Status: " ++ formatInt resp.StatusCode, none)
      else
        match resp.Body with
        | .error err => (false, "", some err)
        | .ok body =>
          match env.parse body with
          | .error err => (false, "", some err)
          | .ok doc => classify env.lowerRune doc

/-! ## `checkAllProducts` -/

/-- The `shortURL` computed in `checkAllProducts`: the URL cut at `"/ref="`, then at `"?"`. -/
def shortURL (url : String) : String :=
  let shortURL := url
  let shortURL :=
    let idx := Index url "/ref="
    if idx ≠ -1 then sliceTo url idx else shortURL
  let shortURL :=
    let idx := Index shortURL "?"
    if idx ≠ -1 then sliceTo shortURL idx else shortURL
  shortURL

/-- One cut of `shortURL` on lists of characters: `s` up to the first occurrence of `sub`,
or `s` itself when `sub` does not occur (used to reason about `shortURL`). -/
def cutAt (sub s : List Char) : List Char :=
  if indexFrom sub s 0 ≠ -1 then s.take (indexFrom sub s 0).toNat else s

/-- The observable steps of a run of `checkAllProducts`. -/
inductive Event where
  | log (msg : String)
  | check (url : String)
  | send (channelID : String) (msg : String)
  | sleep (seconds : Nat)
  deriving DecidableEq, Repr

/-- The body of the loop of `checkAllProducts` for one URL, as the list of its steps.
`sendErr` is the error result of `discord.ChannelMessageSend`. -/
def checkOne (env : Env) (sendErr : String → String → Option String) (channelID : String)
    (url : String) : List Event :=
  let start := [Event.log ("Checking URL: " ++ url), Event.check url]
  match checkAvailability env url with
  | (_, _, some err) =>
    start ++ [Event.log ("Error checking " ++ url ++ ": " ++ err)]
  | (available, status, none) =>
    let shortURL := shortURL url
    let notify :=
      if available then
        let availableMessage := "🎉 This item is now available! Check it out: " ++ shortURL
        [Event.send channelID availableMessage] ++
          (match sendErr channelID availableMessage with
           | some err => [Event.log ("Error sending availability message to Discord: " ++ err)]
           | none => [])
      else []
    start ++
      [Event.log ("Result for " ++ url ++ ": Available=" ++ toString available ++
          ", Status=" ++ status)] ++
      notify ++ [Event.sleep 10]

/-- The function `checkAllProducts` over the URL list: the steps of the whole run. -/
def checkAllProducts (env : Env) (sendErr : String → String → Option String)
    (channelID : String) : List String → List Event
  | [] => []
  | url :: rest =>
    checkOne env sendErr channelID url ++ checkAllProducts env sendErr channelID rest

/-- The `amazonURLs` variable. -/
def amazonURLs : List String :=
  ["https://a.co/d/dLgkilE", "https://a.co/d/d6vEEXI", "https://a.co/d/7tC83zP",
   "https://a.co/d/5lRIZfk", "https://a.co/d/2o5KBYB", "https://a.co/d/1U0OQkb",
   "https://a.co/d/0NvP60s"]

/-! ## Example documents -/

/-- The tree the HTML parser builds for a page whose body has the given nodes. -/
def page (body : List Node) : Document :=
  ⟨[.element "html" [] [.element "head" [] [], .element "body" [] body]]⟩

/-- Page: `<div id="availability">We don't know when or if this item will be back in
stock.</div>`. -/
def docBackInStock : Document :=
  page [.element "div" [⟨"id", "availability"⟩]
    [.text "We don't know when or if this item will be back in stock."]]

/-- Page: `<div id="availability">In Stock.</div>` and
`<span class="a-price a-offscreen">$19.99</span>`. -/
def docOneSpan : Document :=
  page [.element "div" [⟨"id", "availability"⟩] [.text "In Stock."],
        .element "span" [⟨"class", "a-price a-offscreen"⟩] [.text "$19.99"]]

/-- Page: `<div id="availability">In Stock.</div>` and
`<span class="a-price"><span class="a-offscreen">$19.99</span></span>`. -/
def docNestedSpan : Document :=
  page [.element "div" [⟨"id", "availability"⟩] [.text "In Stock."],
        .element "span" [⟨"class", "a-price"⟩]
          [.element "span" [⟨"class", "a-offscreen"⟩] [.text "$19.99"]]]

/-- Page with a buy button, no price element and an empty availability section. -/
def docButtonOnly : Document :=
  page [.element "div" [⟨"id", "availability"⟩] [],
        .element "input" [⟨"id", "add-to-cart-button"⟩] []]

/-- Page with a buy button and a price (`<span id="priceblock_ourprice"> $7.50 </span>`),
and no availability section. -/
def docButtonAndPrice : Document :=
  page [.element "input" [⟨"id", "buy-now-button"⟩] [],
        .element "span" [⟨"id", "priceblock_ourprice"⟩] [.text " $7.50 "]]

/-- An environment in which every request is answered with status 503. -/
def env503 : Env where
  newRequest := fun _ => none
  clientDo := fun _ => .ok ⟨503, .ok "<html><body>Service Unavailable</body></html>"⟩
  parse := fun _ => .ok docButtonAndPrice
  lowerRune := Char.toLower

/-- An environment in which every request fails in transport (`client.Do` returns an
error). -/
def envTimeout : Env where
  newRequest := fun _ => none
  clientDo := fun _ => .error "context deadline exceeded"
  parse := fun _ => .ok (page [])
  lowerRune := Char.toLower

/-- Page: `<span class="a-price"><span class="a-offscreen">$5.00</span></span>` followed by
`<span id="priceblock_ourprice">$9.00</span>`. -/
def docTwoPrices : Document :=
  page [.element "span" [⟨"class", "a-price"⟩]
          [.element "span" [⟨"class", "a-offscreen"⟩] [.text "$5.00"]],
        .element "span" [⟨"id", "priceblock_ourprice"⟩] [.text "$9.00"]]

/-! ## Document order and the price by selector priority -/

/-- An element of a document with the attribute lists of its ancestors, nearest first. -/
structure Located where
  anc : List (List Attribute)
  tag : String
  attr : List Attribute
  children : List Node

/-- The node of a located element. -/
def Located.node (e : Located) : Node :=
  .element e.tag e.attr e.children

mutual
/-- The elements of the subtree of a node, in document order (an element comes before its
descendants, and these before its following siblings). -/
def Node.elements : List (List Attribute) → Node → List Located
  | _, .text _ => []
  | _, .comment _ => []
  | anc, .element tag attr cs => ⟨anc, tag, attr, cs⟩ :: elementsList (attr :: anc) cs
/-- The elements below a list of sibling nodes, in document order. -/
def elementsList : List (List Attribute) → List Node → List Located
  | _, [] => []
  | anc, n :: ns => n.elements anc ++ elementsList anc ns
end

/-- All elements of the document, in document order. -/
def Document.elements (doc : Document) : List Located :=
  elementsList [] doc.roots

/-- The price as the specification words it: the selectors are tried in their fixed order
and the first one that selects anything gives the element whose trimmed text is the
price. -/
def priceByPriority (doc : Document) : String :=
  match priceSelector.find? (fun s => decide ((doc.Find [s]).Length > 0)) with
  | some s => TrimSpace (doc.Find [s]).First.Text
  | none => ""

/-! ## Classification branches -/

theorem classify_unavailable (lowerRune : Char → Char) (doc : Document)
    (h : unavailableIndicators.any
      (fun indicator => Contains (availabilityText lowerRune doc) indicator) = true) :
    classify lowerRune doc = (false, "Currently unavailable", none) := by
  simp only [classify, h, if_true]

theorem classify_inStock (lowerRune : Char → Char) (doc : Document)
    (hun : unavailableIndicators.any
      (fun indicator => Contains (availabilityText lowerRune doc) indicator) = false)
    (hin : inStockIndicators.any
      (fun indicator => Contains (availabilityText lowerRune doc) indicator) = true) :
    classify lowerRune doc =
      if price doc != "" then (true, "Available - Price: " ++ price doc, none)
      else (true, "Available", none) := by
  simp only [classify, hun, hin, if_true, Bool.false_eq_true, if_false]

theorem classify_noText (lowerRune : Char → Char) (doc : Document)
    (hun : unavailableIndicators.any
      (fun indicator => Contains (availabilityText lowerRune doc) indicator) = false)
    (hin : inStockIndicators.any
      (fun indicator => Contains (availabilityText lowerRune doc) indicator) = false) :
    classify lowerRune doc =
      if (buyButton doc && price doc != "") = true then
        (if price doc != "" then (true, "Available - Price: " ++ price doc, none)
         else (true, "Available", none))
      else (false, "Status unclear - possibly unavailable", none) := by
  simp only [classify, hun, hin, Bool.false_eq_true, if_false]

theorem any_false_of_forall (l : List String) (f : String → Bool)
    (h : ∀ p ∈ l, f p = false) : l.any f = false := by
  rw [List.any_eq_false]
  intro p hp
  simp [h p hp]

theorem any_true_of_exists (l : List String) (f : String → Bool)
    (h : ∃ p ∈ l, f p = true) : l.any f = true := by
  rw [List.any_eq_true]
  exact h

theorem price_prefix_ne_available (p : String) : "Available - Price: " ++ p ≠ "Available" := by
  intro h
  have hlen := congrArg String.length h
  rw [String.length_append] at hlen
  have h1 : "Available - Price: ".length = 19 := by decide
  have h2 : "Available".length = 9 := by decide
  omega

/-- C1: when the lower-cased availability-section text contains one of the five
unavailability phrases, the classification is `(false, "Currently unavailable", nil)`,
whatever the buy-button signal, the price and the in-stock phrases are. -/
theorem classify_unavailable_phrase (lowerRune : Char → Char) (doc : Document)
    (h : ∃ p ∈ unavailableIndicators, Contains (availabilityText lowerRune doc) p = true) :
    classify lowerRune doc = (false, "Currently unavailable", none) :=
  classify_unavailable lowerRune doc (any_true_of_exists _ _ h)

theorem classify_unavailable_phrase_witness :
    (∃ p ∈ unavailableIndicators,
      Contains (availabilityText Char.toLower docBackInStock) p = true) ∧
    classify Char.toLower docBackInStock = (false, "Currently unavailable", none) :=
  ⟨by decide, classify_unavailable_phrase Char.toLower docBackInStock (by decide)⟩

/-- C2: with no unavailability phrase, some in-stock phrase and a non-empty price, the
classification is available with status `"Available - Price: "` followed by the price,
the trimmed text of the first element the price selectors select; the buy-button signal
plays no part. -/
theorem classify_in_stock_with_price (lowerRune : Char → Char) (doc : Document)
    (hun : ∀ p ∈ unavailableIndicators, Contains (availabilityText lowerRune doc) p = false)
    (hin : ∃ p ∈ inStockIndicators, Contains (availabilityText lowerRune doc) p = true)
    (hp : price doc ≠ "") :
    classify lowerRune doc =
      (true, "Available - Price: " ++
        TrimSpace (Selection.Text (Selection.First (doc.Find priceSelector))), none) := by
  rw [classify_inStock lowerRune doc (any_false_of_forall _ _ hun) (any_true_of_exists _ _ hin)]
  have : (price doc != "") = true := by simpa using hp
  rw [if_pos this]
  rfl

theorem classify_in_stock_with_price_witness :
    (∀ p ∈ unavailableIndicators,
      Contains (availabilityText Char.toLower docNestedSpan) p = false) ∧
    (∃ p ∈ inStockIndicators,
      Contains (availabilityText Char.toLower docNestedSpan) p = true) ∧
    price docNestedSpan ≠ "" ∧
    buyButton docNestedSpan = false ∧
    classify Char.toLower docNestedSpan = (true, "Available - Price: " ++
        TrimSpace (Selection.Text (Selection.First (docNestedSpan.Find priceSelector))), none) :=
  ⟨by decide, by decide, by decide, by decide,
    classify_in_stock_with_price Char.toLower docNestedSpan (by decide) (by decide) (by decide)⟩

/-- C3: with neither an unavailability phrase nor an in-stock phrase, but with a buy
button and a non-empty price, the classification is available with status
`"Available - Price: "` followed by the price; the status is never the bare `"Available"`. -/
theorem classify_button_and_price (lowerRune : Char → Char) (doc : Document)
    (hun : ∀ p ∈ unavailableIndicators, Contains (availabilityText lowerRune doc) p = false)
    (hin : ∀ p ∈ inStockIndicators, Contains (availabilityText lowerRune doc) p = false)
    (hb : buyButton doc = true) (hp : price doc ≠ "") :
    classify lowerRune doc = (true, "Available - Price: " ++ price doc, none) ∧
    (classify lowerRune doc).2.1 ≠ "Available" := by
  have hbool : (price doc != "") = true := by simpa using hp
  have hc : classify lowerRune doc = (true, "Available - Price: " ++ price doc, none) := by
    rw [classify_noText lowerRune doc (any_false_of_forall _ _ hun)
      (any_false_of_forall _ _ hin)]
    simp only [hb, hbool, Bool.and_self, if_true]
  refine ⟨hc, ?_⟩
  rw [hc]
  exact price_prefix_ne_available (price doc)

theorem classify_button_and_price_witness :
    (∀ p ∈ unavailableIndicators,
      Contains (availabilityText Char.toLower docButtonAndPrice) p = false) ∧
    (∀ p ∈ inStockIndicators,
      Contains (availabilityText Char.toLower docButtonAndPrice) p = false) ∧
    buyButton docButtonAndPrice = true ∧ price docButtonAndPrice = "$7.50" ∧
    classify Char.toLower docButtonAndPrice = (true, "Available - Price: $7.50", none) :=
  ⟨by decide, by decide, by decide, by decide,
    (classify_button_and_price Char.toLower docButtonAndPrice (by decide) (by decide)
      (by decide) (by decide)).1⟩

/-- C4: with neither an unavailability phrase nor an in-stock phrase, and without a buy
button together with a non-empty price, the classification is
`(false, "Status unclear - possibly unavailable", nil)`. -/
theorem classify_status_unclear (lowerRune : Char → Char) (doc : Document)
    (hun : ∀ p ∈ unavailableIndicators, Contains (availabilityText lowerRune doc) p = false)
    (hin : ∀ p ∈ inStockIndicators, Contains (availabilityText lowerRune doc) p = false)
    (hnot : ¬ (buyButton doc = true ∧ price doc ≠ "")) :
    classify lowerRune doc = (false, "Status unclear - possibly unavailable", none) := by
  rw [classify_noText lowerRune doc (any_false_of_forall _ _ hun)
    (any_false_of_forall _ _ hin)]
  have : ¬ ((buyButton doc && price doc != "") = true) := by
    intro h
    apply hnot
    simpa using h
  rw [if_neg this]

theorem classify_status_unclear_witness :
    (∀ p ∈ unavailableIndicators,
      Contains (availabilityText Char.toLower docButtonOnly) p = false) ∧
    (∀ p ∈ inStockIndicators,
      Contains (availabilityText Char.toLower docButtonOnly) p = false) ∧
    buyButton docButtonOnly = true ∧ price docButtonOnly = "" ∧
    classify Char.toLower docButtonOnly =
      (false, "Status unclear - possibly unavailable", none) :=
  ⟨by decide, by decide, by decide, by decide,
    classify_status_unclear Char.toLower docButtonOnly (by decide) (by decide) (by decide)⟩

/-- On a 200 response whose body is read and parsed, `checkAvailability` returns the
classification of the parsed document. -/
theorem checkAvailability_ok (env : Env) (url body : String) (doc : Document)
    (hreq : env.newRequest url = none) (hdo : env.clientDo url = .ok ⟨200, .ok body⟩)
    (hparse : env.parse body = .ok doc) :
    checkAvailability env url = classify env.lowerRune doc := by
  simp [checkAvailability, hreq, hdo, hparse]

/-- C8: when the response has a status code other than 200, `checkAvailability` returns
`(false, "HTTP Status: <code>", nil)` with the code in decimal, whatever the body is and
whatever the parser would do with it. -/
theorem checkAvailability_non_200 (env : Env) (url : String) (code : Int)
    (body : Except String String)
    (hreq : env.newRequest url = none) (hdo : env.clientDo url = .ok ⟨code, body⟩)
    (hcode : code ≠ 200) :
    checkAvailability env url = (false, "HTTP Status: " ++ formatInt code, none) := by
  simp only [checkAvailability, hreq, hdo, ne_eq, hcode, not_false_eq_true, if_true]

theorem checkAvailability_non_200_witness :
    checkAvailability env503 "https://a.co/d/dLgkilE" = (false, "HTTP Status: 503", none) :=
  checkAvailability_non_200 env503 "https://a.co/d/dLgkilE" 503
    (.ok "<html><body>Service Unavailable</body></html>") rfl rfl (by decide)

/-! ## `strings.Index` and the `shortURL` cut -/

/-- The first occurrence found by `indexFrom`: either there is none and the result is `-1`,
or the result is the offset of the earliest position where `sub` starts. -/
theorem indexFrom_spec (sub : List Char) (s : List Char) (i : Nat) :
    (indexFrom sub s i = -1 ∧ ∀ j, ¬ sub <+: s.drop j) ∨
    (∃ k, k ≤ s.length ∧ indexFrom sub s i = ((i + k : Nat) : Int) ∧ sub <+: s.drop k ∧
      ∀ j, j < k → ¬ sub <+: s.drop j) := by
  induction s generalizing i with
  | nil =>
    by_cases h : sub.isPrefixOf [] = true
    · right
      refine ⟨0, le_refl _, by simp [indexFrom, h], ?_, ?_⟩
      · simpa using List.isPrefixOf_iff_prefix.mp h
      · intro j hj; omega
    · left
      refine ⟨by simp [indexFrom, h], ?_⟩
      intro j hp
      apply h
      rw [List.drop_nil] at hp
      exact List.isPrefixOf_iff_prefix.mpr hp
  | cons c cs ih =>
    by_cases h : sub.isPrefixOf (c :: cs) = true
    · right
      refine ⟨0, Nat.zero_le _, by simp [indexFrom, h], ?_, ?_⟩
      · simpa using List.isPrefixOf_iff_prefix.mp h
      · intro j hj; omega
    · have hstep : indexFrom sub (c :: cs) i = indexFrom sub cs (i + 1) := by
        simp [indexFrom, h]
      rcases ih (i + 1) with ⟨hneg, hno⟩ | ⟨k, hk, hidx, hocc, hmin⟩
      · left
        refine ⟨by rw [hstep, hneg], ?_⟩
        intro j hp
        cases j with
        | zero => exact h (List.isPrefixOf_iff_prefix.mpr (by simpa using hp))
        | succ j => exact hno j (by simpa using hp)
      · right
        refine ⟨k + 1, by simp [hk], ?_, by simpa using hocc, ?_⟩
        · rw [hstep, hidx]
          congr 1
          omega
        · intro j hj hp
          cases j with
          | zero => exact h (List.isPrefixOf_iff_prefix.mpr (by simpa using hp))
          | succ j => exact hmin j (by omega) (by simpa using hp)

theorem cutAt_spec (sub s : List Char) :
    ∃ k, k ≤ s.length ∧ cutAt sub s = s.take k ∧ (∀ j, j < k → ¬ sub <+: s.drop j) ∧
      ((k = s.length ∧ ∀ j, ¬ sub <+: s.drop j) ∨ sub <+: s.drop k) := by
  rcases indexFrom_spec sub s 0 with ⟨hneg, hno⟩ | ⟨k, hk, hidx, hocc, hmin⟩
  · refine ⟨s.length, le_refl _, ?_, fun j _ => hno j, Or.inl ⟨rfl, hno⟩⟩
    simp [cutAt, hneg]
  · refine ⟨k, hk, ?_, hmin, Or.inr hocc⟩
    have hne : indexFrom sub s 0 ≠ -1 := by
      rw [hidx]; omega
    rw [cutAt, if_pos hne, hidx]
    simp

theorem cutAt_eq_self (sub s : List Char) (h : ∀ j, ¬ sub <+: s.drop j) : cutAt sub s = s := by
  rcases indexFrom_spec sub s 0 with ⟨hneg, _⟩ | ⟨k, _, _, hocc, _⟩
  · simp [cutAt, hneg]
  · exact absurd hocc (h k)

/-- An occurrence inside a prefix of `s` is an occurrence in `s`. -/
theorem prefix_drop_take (sub s : List Char) (j k : Nat) (h : sub <+: (s.take k).drop j) :
    sub <+: s.drop j := by
  rw [List.drop_take] at h
  exact h.trans (List.take_prefix _ _)

/-- An occurrence in `s` that ends before offset `k` is an occurrence in `s.take k`. -/
theorem prefix_take_drop (sub s : List Char) (j k : Nat) (hjk : j + sub.length ≤ k)
    (h : sub <+: s.drop j) : sub <+: (s.take k).drop j := by
  rw [List.drop_take]
  rw [List.prefix_iff_eq_take] at h ⊢
  rw [List.take_take]
  have : min sub.length (k - j) = sub.length := by omega
  rw [this]
  exact h

theorem absent_take (sub s : List Char) (k : Nat) (hsub : sub ≠ [])
    (h : ∀ j, j < k → ¬ sub <+: s.drop j) : ∀ j, ¬ sub <+: (s.take k).drop j := by
  intro j hp
  by_cases hj : j < k
  · exact h j hj (prefix_drop_take sub s j k hp)
  · have hnil : (s.take k).drop j = [] := by
      apply List.drop_eq_nil_of_le
      rw [List.length_take]
      omega
    rw [hnil] at hp
    exact hsub (List.prefix_nil.mp hp)

theorem shortURL_data (u : String) :
    (shortURL u).data = cutAt "?".data (cutAt "/ref=".data u.data) := by
  simp only [shortURL, Index, sliceTo, cutAt]
  split_ifs <;> rfl

theorem Contains_eq_false (s sub : String) (h : ∀ j, ¬ sub.data <+: s.data.drop j) :
    Contains s sub = false := by
  rcases indexFrom_spec sub.data s.data 0 with ⟨hneg, _⟩ | ⟨k, _, _, hocc, _⟩
  · simp [Contains, Index, hneg]
  · exact absurd hocc (h k)

theorem absent_of_Contains_eq_false (s sub : String) (h : Contains s sub = false) :
    ∀ j, ¬ sub.data <+: s.data.drop j := by
  rcases indexFrom_spec sub.data s.data 0 with ⟨_, hno⟩ | ⟨k, _, hidx, _, _⟩
  · exact hno
  · exfalso
    simp only [Contains, Index, hidx, decide_eq_false_iff_not] at h
    apply h
    omega

theorem ref_ne_nil : "/ref=".data ≠ [] := by decide

theorem qmark_ne_nil : "?".data ≠ [] := by decide

/-- Both patterns are absent from the result of `shortURL`. -/
theorem shortURL_absent (u : String) :
    (∀ j, ¬ "/ref=".data <+: (shortURL u).data.drop j) ∧
    (∀ j, ¬ "?".data <+: (shortURL u).data.drop j) := by
  rw [shortURL_data]
  obtain ⟨k1, _, hcut1, hmin1, _⟩ := cutAt_spec "/ref=".data u.data
  obtain ⟨k2, _, hcut2, hmin2, _⟩ := cutAt_spec "?".data (cutAt "/ref=".data u.data)
  have habs1 : ∀ j, ¬ "/ref=".data <+: (cutAt "/ref=".data u.data).drop j := by
    rw [hcut1]
    exact absent_take _ _ _ ref_ne_nil hmin1
  rw [hcut2]
  exact ⟨absent_take _ _ _ ref_ne_nil (fun j _ => habs1 j),
    absent_take _ _ _ qmark_ne_nil hmin2⟩

/-- C6: the `shortURL` derivation is idempotent. -/
theorem shortURL_idempotent (u : String) : shortURL (shortURL u) = shortURL u := by
  have h := shortURL_absent u
  have hd : (shortURL (shortURL u)).data = (shortURL u).data := by
    rw [shortURL_data (shortURL u), cutAt_eq_self _ _ h.1, cutAt_eq_self _ _ h.2]
  exact String.ext hd

theorem shortURL_earliest (u : String) :
    ∃ k : Nat, k ≤ u.data.length ∧ (shortURL u).data = u.data.take k ∧
      (∀ j, j < k → ¬ "/ref=".data <+: u.data.drop j ∧ ¬ "?".data <+: u.data.drop j) ∧
      (k = u.data.length ∨ "/ref=".data <+: u.data.drop k ∨ "?".data <+: u.data.drop k) := by
  obtain ⟨k1, hk1, hcut1, hmin1, hend1⟩ := cutAt_spec "/ref=".data u.data
  obtain ⟨k2, hk2, hcut2, hmin2, hend2⟩ := cutAt_spec "?".data (cutAt "/ref=".data u.data)
  rw [hcut1] at hk2 hcut2 hmin2 hend2
  have hlen : (u.data.take k1).length = k1 := by
    rw [List.length_take]; omega
  rw [hlen] at hk2 hend2
  refine ⟨k2, by omega, ?_, ?_, ?_⟩
  · rw [shortURL_data, hcut1, hcut2, List.take_take]
    congr 1
    omega
  · intro j hj
    refine ⟨hmin1 j (by omega), ?_⟩
    intro hq
    apply hmin2 j hj
    apply prefix_take_drop _ _ _ _ _ hq
    have : "?".data.length = 1 := by decide
    omega
  · rcases hend2 with ⟨hk, _⟩ | hq
    · rcases hend1 with ⟨hl, _⟩ | hr
      · left; omega
      · right; left
        rw [hk]; exact hr
    · right; right
      exact prefix_drop_take _ _ _ _ hq

/-- C7: the `shortURL` of `u` is a prefix of `u` containing neither `"/ref="` nor `"?"`; it
is `u[:k]` for the earliest offset `k` at which `"/ref="` or `"?"` starts in `u` (the whole
of `u` when there is no such offset), so it equals `u` when `u` contains neither; and
`"https://a.co/d/XYZ/ref=abc?tag=1"` gives `"https://a.co/d/XYZ"`. -/
theorem shortURL_cut_at_earliest (u : String) :
    (shortURL u).data <+: u.data ∧
    Contains (shortURL u) "/ref=" = false ∧ Contains (shortURL u) "?" = false ∧
    (∃ k : Nat, k ≤ u.data.length ∧ shortURL u = sliceTo u k ∧
      (∀ j, j < k → ¬ "/ref=".data <+: u.data.drop j ∧ ¬ "?".data <+: u.data.drop j) ∧
      (k = u.data.length ∨ "/ref=".data <+: u.data.drop k ∨ "?".data <+: u.data.drop k)) ∧
    (Contains u "/ref=" = false ∧ Contains u "?" = false → shortURL u = u) ∧
    shortURL "https://a.co/d/XYZ/ref=abc?tag=1" = "https://a.co/d/XYZ" := by
  obtain ⟨k, hk, hdata, hmin, hend⟩ := shortURL_earliest u
  have habs := shortURL_absent u
  refine ⟨?_, Contains_eq_false _ _ habs.1, Contains_eq_false _ _ habs.2,
    ⟨k, hk, ?_, hmin, hend⟩, ?_, by decide⟩
  · rw [hdata]
    exact List.take_prefix _ _
  · apply String.ext
    rw [hdata]
    simp [sliceTo]
  · rintro ⟨hr, hq⟩
    apply String.ext
    rw [shortURL_data, cutAt_eq_self _ _ (absent_of_Contains_eq_false _ _ hr),
      cutAt_eq_self _ _ (absent_of_Contains_eq_false _ _ hq)]

/-! ## The price selector -/

theorem ToLower_congr (f g : Char → Char) (s : String) (h : ∀ c ∈ s.data, f c = g c) :
    ToLower f s = ToLower g s := by
  simp only [ToLower]
  congr 1
  exact List.map_congr_left h

theorem classify_congr (f g : Char → Char) (doc : Document)
    (h : availabilityText f doc = availabilityText g doc) :
    classify f doc = classify g doc := by
  simp only [classify, h]

/-- C5 as stated fails: for the page with one span carrying both classes the price is empty
and the status is not `"Available - Price: $19.99"`. -/
theorem classify_one_span_counterexample :
    price docOneSpan = "" ∧
    classify Char.toLower docOneSpan ≠ (true, "Available - Price: $19.99", none) := by
  decide

/-- C5, amended: for `<div id="availability">In Stock.</div>` with
`<span class="a-price a-offscreen">$19.99</span>` the price selectors select nothing (the
selector `.a-price .a-offscreen` asks for an `a-offscreen` element below an `a-price`
element), the price is empty and the classification is `(true, "Available")`; with the
`a-offscreen` span nested in an `a-price` span the price is `"$19.99"` and the
classification is `(true, "Available - Price: $19.99")`. -/
theorem classify_one_span (lowerRune : Char → Char)
    (h : ∀ c : Char, c.toNat < 128 → lowerRune c = c.toLower) :
    docOneSpan.Find priceSelector = [] ∧ price docOneSpan = "" ∧
    classify lowerRune docOneSpan = (true, "Available", none) ∧
    price docNestedSpan = "$19.99" ∧
    classify lowerRune docNestedSpan = (true, "Available - Price: $19.99", none) := by
  have htext : ∀ doc : Document, (doc.Find availabilitySelector).Text = "In Stock." →
      classify lowerRune doc = classify Char.toLower doc := by
    intro doc hdoc
    apply classify_congr
    simp only [availabilityText, hdoc]
    apply ToLower_congr
    intro c hc
    apply h
    revert c
    decide
  refine ⟨rfl, by decide, ?_, by decide, ?_⟩
  · rw [htext docOneSpan (by decide)]
    decide
  · rw [htext docNestedSpan (by decide)]
    decide

theorem classify_one_span_witness :
    classify Char.toLower docOneSpan = (true, "Available", none) ∧
    classify Char.toLower docNestedSpan = (true, "Available - Price: $19.99", none) :=
  ⟨(classify_one_span Char.toLower (fun _ _ => rfl)).2.2.1,
    (classify_one_span Char.toLower (fun _ _ => rfl)).2.2.2.2⟩

mutual
theorem Node.matchAll_eq_filter (g : List Sel) :
    ∀ (anc : List (List Attribute)) (n : Node),
      n.matchAll g anc =
        ((n.elements anc).filter (fun e => matchGroup g e.anc e.attr)).map Located.node
  | _, .text _ => by simp [Node.matchAll, Node.elements]
  | _, .comment _ => by simp [Node.matchAll, Node.elements]
  | anc, .element tag attr cs => by
    have ih := matchAllList_eq_filter g (attr :: anc) cs
    by_cases hm : matchGroup g anc attr = true
    · simp [Node.matchAll, Node.elements, List.filter_cons, hm, ih, Located.node]
    · simp [Node.matchAll, Node.elements, List.filter_cons, hm, ih]
theorem matchAllList_eq_filter (g : List Sel) :
    ∀ (anc : List (List Attribute)) (ns : List Node),
      matchAllList g anc ns =
        ((elementsList anc ns).filter (fun e => matchGroup g e.anc e.attr)).map Located.node
  | _, [] => by simp [matchAllList, elementsList]
  | anc, n :: ns => by
    have ih1 := Node.matchAll_eq_filter g anc n
    have ih2 := matchAllList_eq_filter g anc ns
    simp [matchAllList, elementsList, ih1, ih2]
end

/-- C10 as stated fails: on a page where an element matching `.a-price .a-offscreen` comes
before an element matching `#priceblock_ourprice`, the price is the text of the former,
not of the element of the higher-priority selector. -/
theorem price_priority_counterexample :
    price docTwoPrices = "$5.00" ∧ priceByPriority docTwoPrices = "$9.00" ∧
    price docTwoPrices ≠ priceByPriority docTwoPrices := by
  decide

/-- C10, amended: the price is the trimmed text of the first element, in document order,
that matches any of the four price selectors (empty when no element matches), and
`hasPrice` holds exactly when that text is non-empty. -/
theorem price_first_in_document_order (doc : Document) :
    price doc =
      TrimSpace (Selection.Text
        (((doc.elements.filter
          (fun e => matchGroup priceSelector e.anc e.attr)).map Located.node).take 1)) ∧
    ((price doc != "") = true ↔
      TrimSpace (Selection.Text
        (((doc.elements.filter
          (fun e => matchGroup priceSelector e.anc e.attr)).map Located.node).take 1)) ≠ "") := by
  have hp : price doc =
      TrimSpace (Selection.Text
        (((doc.elements.filter
          (fun e => matchGroup priceSelector e.anc e.attr)).map Located.node).take 1)) := by
    simp only [price, Document.Find, Selection.First, Document.elements,
      matchAllList_eq_filter]
  refine ⟨hp, ?_⟩
  rw [← hp]
  simp

/-! ## The delay in `checkAllProducts` -/

/-- When `checkAvailability` returns no error, the steps for the URL end with the
10-second sleep. -/
theorem checkOne_sleep_of_no_error (env : Env) (sendErr : String → String → Option String)
    (channelID url : String) (available : Bool) (status : String)
    (h : checkAvailability env url = (available, status, none)) :
    ∃ steps, checkOne env sendErr channelID url = steps ++ [Event.sleep 10] := by
  simp only [checkOne, h]
  exact ⟨_, rfl⟩

/-- C9: when `checkAvailability` returns an error, the loop goes on to the next URL, and the
run ends, without any sleep. -/
theorem checkAllProducts_error_skips_sleep :
    checkAllProducts envTimeout (fun _ _ => none) "channel"
        ["https://a.co/d/dLgkilE", "https://a.co/d/d6vEEXI"] =
      [Event.log "Checking URL: https://a.co/d/dLgkilE",
       Event.check "https://a.co/d/dLgkilE",
       Event.log "Error checking https://a.co/d/dLgkilE: context deadline exceeded",
       Event.log "Checking URL: https://a.co/d/d6vEEXI",
       Event.check "https://a.co/d/d6vEEXI",
       Event.log "Error checking https://a.co/d/d6vEEXI: context deadline exceeded"] := by
  decide

end Labubu
